import Mathlib

/-!
# Verification of the openwork compatibility-shim repository

Shallow embedding of the web-server API-key store
(`apps/web-server/src/store/secureStorage.ts`,
`apps/web-server/src/routes/apiKeys.ts`), the environment detector and
transport facade (`apps/desktop/src/renderer/lib/environment.ts`,
`accomplish.ts`) and the browser event-channel client
(`apps/desktop/src/renderer/lib/browserApi.ts`).

JavaScript strings are modelled as lists of UTF-16 code units
(natural numbers below 2^16).  Node's `Buffer.from(s).toString('base64')`
and `Buffer.from(b, 'base64').toString()` are modelled by an explicit
UTF-8 encoder/decoder (with the WHATWG replacement of unpaired
surrogates by U+FFFD, exactly what Node does) composed with a base64
encoder/decoder.
-/

set_option maxRecDepth 10000

/-- A UTF-16 code unit in the high-surrogate range `0xD800–0xDBFF`. -/
def surrHi (u : Nat) : Bool := 55296 ≤ u && u < 56320

/-- A UTF-16 code unit in the low-surrogate range `0xDC00–0xDFFF`. -/
def surrLo (u : Nat) : Bool := 56320 ≤ u && u < 57344

/-- UTF-8 byte sequence of one Unicode scalar value. -/
def utf8EncodeCp (c : Nat) : List Nat :=
  if c < 128 then [c]
  else if c < 2048 then [192 + c / 64, 128 + c % 64]
  else if c < 65536 then [224 + c / 4096, 128 + (c / 64) % 64, 128 + c % 64]
  else [240 + c / 262144, 128 + (c / 4096) % 64, 128 + (c / 64) % 64, 128 + c % 64]

/-- UTF-8 encoding of a list of UTF-16 code units, as performed by Node's
`Buffer.from(string)`: well-paired surrogates combine into an astral
scalar, unpaired surrogates are replaced by U+FFFD (65533). -/
def utf8Encode : List Nat → List Nat
  | [] => []
  | [u] => if surrHi u || surrLo u then utf8EncodeCp 65533 else utf8EncodeCp u
  | u :: v :: rest =>
    if surrHi u then
      if surrLo v then
        utf8EncodeCp (65536 + (u - 55296) * 1024 + (v - 56320)) ++ utf8Encode rest
      else utf8EncodeCp 65533 ++ utf8Encode (v :: rest)
    else if surrLo u then utf8EncodeCp 65533 ++ utf8Encode (v :: rest)
    else utf8EncodeCp u ++ utf8Encode (v :: rest)

/-- Scalar value of a decoded 4-byte UTF-8 sequence. -/
def cp4 (b b1 b2 b3 : Nat) : Nat :=
  (b - 240) * 262144 + (b1 - 128) * 4096 + (b2 - 128) * 64 + (b3 - 128)

/-- UTF-8 decoding back to UTF-16 code units, as performed by Node's
`buffer.toString()`: astral scalars are split into a surrogate pair,
invalid bytes become U+FFFD. -/
def utf8Decode : List Nat → List Nat
  | [] => []
  | [b] => if b < 128 then [b] else [65533]
  | [b, b1] =>
    if b < 128 then b :: utf8Decode [b1]
    else if 194 ≤ b ∧ b < 224 then
      if 128 ≤ b1 ∧ b1 < 192 then [(b - 192) * 64 + (b1 - 128)]
      else 65533 :: utf8Decode [b1]
    else if 224 ≤ b ∧ b < 245 then
      if 128 ≤ b1 ∧ b1 < 192 then [65533]
      else 65533 :: utf8Decode [b1]
    else 65533 :: utf8Decode [b1]
  | [b, b1, b2] =>
    if b < 128 then b :: utf8Decode [b1, b2]
    else if 194 ≤ b ∧ b < 224 then
      if 128 ≤ b1 ∧ b1 < 192 then ((b - 192) * 64 + (b1 - 128)) :: utf8Decode [b2]
      else 65533 :: utf8Decode [b1, b2]
    else if 224 ≤ b ∧ b < 240 then
      if (128 ≤ b1 ∧ b1 < 192) ∧ (128 ≤ b2 ∧ b2 < 192) then
        [(b - 224) * 4096 + (b1 - 128) * 64 + (b2 - 128)]
      else 65533 :: utf8Decode [b1, b2]
    else if 240 ≤ b ∧ b < 245 then
      if (128 ≤ b1 ∧ b1 < 192) ∧ (128 ≤ b2 ∧ b2 < 192) then [65533]
      else 65533 :: utf8Decode [b1, b2]
    else 65533 :: utf8Decode [b1, b2]
  | b :: b1 :: b2 :: b3 :: bs =>
    if b < 128 then b :: utf8Decode (b1 :: b2 :: b3 :: bs)
    else if 194 ≤ b ∧ b < 224 then
      if 128 ≤ b1 ∧ b1 < 192 then
        ((b - 192) * 64 + (b1 - 128)) :: utf8Decode (b2 :: b3 :: bs)
      else 65533 :: utf8Decode (b1 :: b2 :: b3 :: bs)
    else if 224 ≤ b ∧ b < 240 then
      if (128 ≤ b1 ∧ b1 < 192) ∧ (128 ≤ b2 ∧ b2 < 192) then
        ((b - 224) * 4096 + (b1 - 128) * 64 + (b2 - 128)) :: utf8Decode (b3 :: bs)
      else 65533 :: utf8Decode (b1 :: b2 :: b3 :: bs)
    else if 240 ≤ b ∧ b < 245 then
      if ((128 ≤ b1 ∧ b1 < 192) ∧ (128 ≤ b2 ∧ b2 < 192)) ∧ (128 ≤ b3 ∧ b3 < 192) then
        (55296 + (cp4 b b1 b2 b3 - 65536) / 1024) ::
          (56320 + (cp4 b b1 b2 b3 - 65536) % 1024) :: utf8Decode bs
      else 65533 :: utf8Decode (b1 :: b2 :: b3 :: bs)
    else 65533 :: utf8Decode (b1 :: b2 :: b3 :: bs)

/-- Well-formed UTF-16: every code unit is below 2^16, every high surrogate
is immediately followed by a low surrogate, and no low surrogate appears
unpaired.  JavaScript strings produced from ordinary text satisfy this. -/
def wfUnits : List Nat → Bool
  | [] => true
  | [u] => if surrHi u then false else !surrLo u && decide (u < 65536)
  | u :: v :: rest =>
    if surrHi u then surrLo v && wfUnits rest
    else !surrLo u && decide (u < 65536) && wfUnits (v :: rest)

/-- base64 character (as a char code) of a 6-bit value, standard alphabet. -/
def sextetChar (n : Nat) : Nat :=
  if n < 26 then 65 + n
  else if n < 52 then 97 + (n - 26)
  else if n < 62 then 48 + (n - 52)
  else if n = 62 then 43
  else 47

/-- Inverse of `sextetChar` on the base64 alphabet. -/
def charSextet (c : Nat) : Nat :=
  if 65 ≤ c && c < 91 then c - 65
  else if 97 ≤ c && c < 123 then 26 + (c - 97)
  else if 48 ≤ c && c < 58 then 52 + (c - 48)
  else if c = 43 then 62
  else if c = 47 then 63
  else 0

/-- base64 encoding of a byte list (char codes, `=` = 61), as performed by
`Buffer.prototype.toString('base64')`. -/
def b64Encode : List Nat → List Nat
  | [] => []
  | [a] => [sextetChar (a / 4), sextetChar (a % 4 * 16), 61, 61]
  | [a, b] => [sextetChar (a / 4), sextetChar (a % 4 * 16 + b / 16), sextetChar (b % 16 * 4), 61]
  | a :: b :: c :: rest =>
    sextetChar (a / 4) :: sextetChar (a % 4 * 16 + b / 16) ::
      sextetChar (b % 16 * 4 + c / 64) :: sextetChar (c % 64) :: b64Encode rest

/-- base64 decoding, as performed by `Buffer.from(s, 'base64')`. -/
def b64Decode : List Nat → List Nat
  | c0 :: c1 :: c2 :: c3 :: rest =>
    if c2 = 61 then [charSextet c0 * 4 + charSextet c1 / 16]
    else if c3 = 61 then
      [charSextet c0 * 4 + charSextet c1 / 16,
       charSextet c1 % 16 * 16 + charSextet c2 / 4]
    else
      (charSextet c0 * 4 + charSextet c1 / 16) ::
        (charSextet c1 % 16 * 16 + charSextet c2 / 4) ::
        (charSextet c2 % 4 * 64 + charSextet c3) :: b64Decode rest
  | _ => []

/-- Code units of the default `ENCRYPTION_KEY` string
`'change-me-in-production'` from `secureStorage.ts` (the
`process.env.ENCRYPTION_KEY` fallback). -/
def encryptionKey : List Nat :=
  [99, 104, 97, 110, 103, 101, 45, 109, 101, 45, 105, 110, 45,
   112, 114, 111, 100, 117, 99, 116, 105, 111, 110]

/-- `ENCRYPTION_KEY.charCodeAt(i % ENCRYPTION_KEY.length)`. -/
def keyCodeAt (i : Nat) : Nat := encryptionKey.getD (i % 23) 0

/-- The per-character XOR loop shared by `simpleEncrypt` and
`simpleDecrypt`, starting at text index `i`. -/
def xorFrom (i : Nat) : List Nat → List Nat
  | [] => []
  | u :: rest => (u ^^^ keyCodeAt i) :: xorFrom (i + 1) rest

/-- `simpleEncrypt` from `secureStorage.ts`: XOR each code unit with the
cyclic key, then `Buffer.from(result).toString('base64')`. -/
def simpleEncrypt (text : List Nat) : List Nat :=
  b64Encode (utf8Encode (xorFrom 0 text))

/-- `simpleDecrypt` from `secureStorage.ts`: `Buffer.from(encrypted,
'base64').toString()`, then XOR each code unit with the cyclic key. -/
def simpleDecrypt (encrypted : List Nat) : List Nat :=
  xorFrom 0 (utf8Decode (b64Decode encrypted))

/-! ## Round-trip properties of the encoding pipeline -/

theorem charSextet_sextetChar : ∀ n, n < 64 → charSextet (sextetChar n) = n := by decide

theorem sextetChar_ne_pad (n : Nat) : sextetChar n ≠ 61 := by
  unfold sextetChar
  split_ifs <;> omega

theorem b64_decode_encode (bs : List Nat) (hb : ∀ x ∈ bs, x < 256) :
    b64Decode (b64Encode bs) = bs := by
  induction bs using b64Encode.induct with
  | case1 => rfl
  | case2 a =>
    have ha : a < 256 := hb a (by simp)
    simp only [b64Encode, b64Decode]
    rw [if_pos trivial]
    rw [charSextet_sextetChar _ (by omega), charSextet_sextetChar _ (by omega)]
    congr 1
    omega
  | case3 a b =>
    have ha : a < 256 := hb a (by simp)
    have hb2 : b < 256 := hb b (by simp)
    simp only [b64Encode, b64Decode]
    rw [if_neg (sextetChar_ne_pad _), if_pos trivial]
    rw [charSextet_sextetChar _ (by omega), charSextet_sextetChar _ (by omega),
        charSextet_sextetChar _ (by omega)]
    congr 1
    · omega
    · congr 1
      omega
  | case4 a b c rest ih =>
    have ha : a < 256 := hb a (by simp)
    have hb2 : b < 256 := hb b (by simp)
    have hc : c < 256 := hb c (by simp)
    have hrest : ∀ x ∈ rest, x < 256 := fun x hx => hb x (by simp [hx])
    simp only [b64Encode, b64Decode]
    rw [if_neg (sextetChar_ne_pad _), if_neg (sextetChar_ne_pad _)]
    rw [charSextet_sextetChar _ (by omega), charSextet_sextetChar _ (by omega),
        charSextet_sextetChar _ (by omega), charSextet_sextetChar _ (by omega)]
    rw [ih hrest]
    congr 1
    · omega
    · congr 1
      · omega
      · congr 1
        omega


theorem utf8Decode_cp1 (c : Nat) (h : c < 128) (bs : List Nat) :
    utf8Decode (utf8EncodeCp c ++ bs) = c :: utf8Decode bs := by
  have hcp : utf8EncodeCp c = [c] := by
    unfold utf8EncodeCp
    rw [if_pos h]
  rw [hcp]
  rcases bs with _ | ⟨y, _ | ⟨z, _ | ⟨w, ws⟩⟩⟩ <;>
    (simp only [List.cons_append, List.nil_append, utf8Decode]; rw [if_pos h])

theorem utf8Decode_cp2 (c : Nat) (h1 : 128 ≤ c) (h2 : c < 2048) (bs : List Nat) :
    utf8Decode (utf8EncodeCp c ++ bs) = c :: utf8Decode bs := by
  have hcp : utf8EncodeCp c = [192 + c / 64, 128 + c % 64] := by
    unfold utf8EncodeCp
    rw [if_neg (by omega), if_pos h2]
  rw [hcp]
  rcases bs with _ | ⟨z, _ | ⟨w, ws⟩⟩ <;>
    (simp only [List.cons_append, List.nil_append, utf8Decode]
     rw [if_neg (by omega), if_pos (by omega : 194 ≤ 192 + c / 64 ∧ 192 + c / 64 < 224),
         if_pos (by omega : 128 ≤ 128 + c % 64 ∧ 128 + c % 64 < 192)]
     congr 1
     omega)

theorem utf8Decode_cp3 (c : Nat) (h1 : 2048 ≤ c) (h2 : c < 65536) (bs : List Nat) :
    utf8Decode (utf8EncodeCp c ++ bs) = c :: utf8Decode bs := by
  have hcp : utf8EncodeCp c = [224 + c / 4096, 128 + c / 64 % 64, 128 + c % 64] := by
    unfold utf8EncodeCp
    rw [if_neg (by omega), if_neg (by omega), if_pos h2]
  rw [hcp]
  rcases bs with _ | ⟨w, ws⟩ <;>
    (simp only [List.cons_append, List.nil_append, utf8Decode]
     rw [if_neg (by omega), if_neg (by omega),
         if_pos (by omega : 224 ≤ 224 + c / 4096 ∧ 224 + c / 4096 < 240),
         if_pos (by omega :
           (128 ≤ 128 + c / 64 % 64 ∧ 128 + c / 64 % 64 < 192) ∧
             128 ≤ 128 + c % 64 ∧ 128 + c % 64 < 192)]
     congr 1
     omega)

theorem utf8Decode_cp4 (c : Nat) (h1 : 65536 ≤ c) (h2 : c < 1114112) (bs : List Nat) :
    utf8Decode (utf8EncodeCp c ++ bs) =
      (55296 + (c - 65536) / 1024) :: (56320 + (c - 65536) % 1024) :: utf8Decode bs := by
  have hcp : utf8EncodeCp c =
      [240 + c / 262144, 128 + c / 4096 % 64, 128 + c / 64 % 64, 128 + c % 64] := by
    unfold utf8EncodeCp
    rw [if_neg (by omega), if_neg (by omega), if_neg (by omega)]
  have hv : cp4 (240 + c / 262144) (128 + c / 4096 % 64) (128 + c / 64 % 64) (128 + c % 64) = c := by
    unfold cp4
    omega
  rw [hcp]
  simp only [List.cons_append, List.nil_append, utf8Decode]
  rw [if_neg (by omega), if_neg (by omega), if_neg (by omega),
      if_pos (by omega : 240 ≤ 240 + c / 262144 ∧ 240 + c / 262144 < 245),
      if_pos (by omega :
        ((128 ≤ 128 + c / 4096 % 64 ∧ 128 + c / 4096 % 64 < 192) ∧
          128 ≤ 128 + c / 64 % 64 ∧ 128 + c / 64 % 64 < 192) ∧
          128 ≤ 128 + c % 64 ∧ 128 + c % 64 < 192), hv]
  rfl
theorem wfUnits_nil : wfUnits [] = true := rfl

theorem wfUnits_single_hi (u : Nat) (hh : surrHi u = true) : wfUnits [u] = false := by
  simp only [wfUnits]
  rw [if_pos hh]

theorem wfUnits_single (u : Nat) (hh : surrHi u = false) :
    wfUnits [u] = (!surrLo u && decide (u < 65536)) := by
  simp only [wfUnits]
  rw [if_neg (by simp [hh])]

theorem wfUnits_cons_hi (u v : Nat) (rest : List Nat) (hh : surrHi u = true) :
    wfUnits (u :: v :: rest) = (surrLo v && wfUnits rest) := by
  simp only [wfUnits]
  rw [if_pos hh]

theorem wfUnits_cons2 (u v : Nat) (rest : List Nat) (hh : surrHi u = false) :
    wfUnits (u :: v :: rest) = (!surrLo u && decide (u < 65536) && wfUnits (v :: rest)) := by
  simp only [wfUnits]
  rw [if_neg (by simp [hh])]

theorem surrHi_false_of_lo (u : Nat) (hl : surrLo u = true) : surrHi u = false := by
  simp only [surrHi, surrLo, Bool.and_eq_true, decide_eq_true_eq] at hl
  simp only [surrHi, Bool.and_eq_false_iff, decide_eq_false_iff_not]
  omega

theorem utf8_decode_encode (us : List Nat) (h : wfUnits us = true) :
    utf8Decode (utf8Encode us) = us := by
  induction us using utf8Encode.induct with
  | case1 => rfl
  | case2 u hu =>
    exfalso
    simp only [Bool.or_eq_true] at hu
    rcases hu with hh | hl
    · rw [wfUnits_single_hi u hh] at h
      exact Bool.false_ne_true h
    · rw [wfUnits_single u (surrHi_false_of_lo u hl), hl] at h
      simp at h
  | case3 u hu =>
    simp only [Bool.or_eq_true, not_or, Bool.not_eq_true] at hu
    obtain ⟨hh, hl⟩ := hu
    rw [wfUnits_single u hh, hl] at h
    simp only [Bool.not_false, Bool.true_and, decide_eq_true_eq] at h
    simp only [utf8Encode]
    rw [if_neg (by simp [hh, hl])]
    rcases Nat.lt_or_ge u 128 with h1 | h1
    · simpa using utf8Decode_cp1 u h1 []
    rcases Nat.lt_or_ge u 2048 with h2 | h2
    · simpa using utf8Decode_cp2 u h1 h2 []
    · simpa using utf8Decode_cp3 u h2 h []
  | case4 u v rest hu hv ih =>
    rw [wfUnits_cons_hi u v rest hu, hv, Bool.true_and] at h
    have hu' : 55296 ≤ u ∧ u < 56320 := by
      simpa only [surrHi, Bool.and_eq_true, decide_eq_true_eq] using hu
    have hv' : 56320 ≤ v ∧ v < 57344 := by
      simpa only [surrLo, Bool.and_eq_true, decide_eq_true_eq] using hv
    simp only [utf8Encode]
    rw [if_pos hu, if_pos hv, utf8Decode_cp4 _ (by omega) (by omega), ih h]
    simp only [List.cons.injEq]
    refine ⟨by omega, by omega, trivial⟩
  | case5 u v rest hu hv ih =>
    exfalso
    rw [wfUnits_cons_hi u v rest hu] at h
    rw [Bool.and_eq_true] at h
    exact hv h.1
  | case6 u v rest hh hl ih =>
    exfalso
    rw [wfUnits_cons2 u v rest (Bool.not_eq_true _ |>.mp hh), hl] at h
    simp at h
  | case7 u v rest hh hl ih =>
    have hh' : surrHi u = false := Bool.not_eq_true _ |>.mp hh
    have hl' : surrLo u = false := Bool.not_eq_true _ |>.mp hl
    rw [wfUnits_cons2 u v rest hh', hl'] at h
    simp only [Bool.not_false, Bool.true_and, Bool.and_eq_true, decide_eq_true_eq] at h
    have hs : ¬(55296 ≤ u ∧ u < 57344) := by
      simp only [surrHi, surrLo, Bool.and_eq_false_iff, decide_eq_false_iff_not,
        not_le, not_lt] at hh' hl'
      omega
    simp only [utf8Encode]
    rw [if_neg (by simp [hh']), if_neg (by simp [hl'])]
    have hrest := ih h.2
    rcases Nat.lt_or_ge u 128 with h1 | h1
    · rw [utf8Decode_cp1 u h1, hrest]
    rcases Nat.lt_or_ge u 2048 with h2 | h2
    · rw [utf8Decode_cp2 u h1 h2, hrest]
    · rw [utf8Decode_cp3 u h2 h.1, hrest]

/-! ## XOR layer: the cyclic key keeps every UTF-16 classification stable -/

theorem keyCodeAt_lt (i : Nat) : keyCodeAt i < 128 := by
  have h : ∀ j, j < 23 → encryptionKey.getD j 0 < 128 := by decide
  exact h _ (Nat.mod_lt _ (by omega))

theorem div_pow_xor (u k n : Nat) (hk : k < 2 ^ n) : (u ^^^ k) / 2 ^ n = u / 2 ^ n := by
  rw [← Nat.shiftRight_eq_div_pow, ← Nat.shiftRight_eq_div_pow]
  apply Nat.eq_of_testBit_eq
  intro j
  have hkb : k.testBit (n + j) = false :=
    Nat.testBit_eq_false_of_lt (lt_of_lt_of_le hk (Nat.pow_le_pow_right (by omega) (by omega)))
  simp [Nat.testBit_shiftRight, Nat.testBit_xor, hkb]

theorem surrHi_xor (u k : Nat) (hk : k < 128) : surrHi (u ^^^ k) = surrHi u := by
  have h : (u ^^^ k) / 2 ^ 10 = u / 2 ^ 10 := div_pow_xor u k 10 (by omega)
  simp only [surrHi, ← Bool.decide_and]
  exact decide_eq_decide.mpr (by omega)

theorem surrLo_xor (u k : Nat) (hk : k < 128) : surrLo (u ^^^ k) = surrLo u := by
  have h : (u ^^^ k) / 2 ^ 10 = u / 2 ^ 10 := div_pow_xor u k 10 (by omega)
  simp only [surrLo, ← Bool.decide_and]
  exact decide_eq_decide.mpr (by omega)

theorem decide_lt_xor (u k : Nat) (hk : k < 128) :
    decide (u ^^^ k < 65536) = decide (u < 65536) := by
  have h : (u ^^^ k) / 2 ^ 16 = u / 2 ^ 16 := div_pow_xor u k 16 (by omega)
  exact decide_eq_decide.mpr (by omega)

theorem xorFrom_xorFrom (i : Nat) (us : List Nat) : xorFrom i (xorFrom i us) = us := by
  induction us generalizing i with
  | nil => rfl
  | cons u rest ih => simp only [xorFrom, Nat.xor_cancel_right, ih]

theorem wfUnits_xorFrom (i : Nat) (us : List Nat) : wfUnits (xorFrom i us) = wfUnits us := by
  induction us using wfUnits.induct generalizing i with
  | case1 => rfl
  | case2 u hu =>
    simp only [xorFrom, wfUnits]
    rw [if_pos (by rw [surrHi_xor u _ (keyCodeAt_lt i)]; exact hu), if_pos hu]
  | case3 u hu =>
    have hh := Bool.not_eq_true _ |>.mp hu
    simp only [xorFrom, wfUnits]
    rw [if_neg (by rw [surrHi_xor u _ (keyCodeAt_lt i)]; simp [hh]), if_neg (by simp [hh]),
        surrLo_xor u _ (keyCodeAt_lt i), decide_lt_xor u _ (keyCodeAt_lt i)]
  | case4 u v rest hu ih =>
    simp only [xorFrom, wfUnits]
    rw [if_pos (by rw [surrHi_xor u _ (keyCodeAt_lt i)]; exact hu), if_pos hu,
        surrLo_xor v _ (keyCodeAt_lt (i + 1)), ih]
  | case5 u v rest hu ih =>
    have hh := Bool.not_eq_true _ |>.mp hu
    simp only [xorFrom, wfUnits]
    rw [if_neg (by rw [surrHi_xor u _ (keyCodeAt_lt i)]; simp [hh]), if_neg (by simp [hh]),
        surrLo_xor u _ (keyCodeAt_lt i), decide_lt_xor u _ (keyCodeAt_lt i)]
    have := ih (i + 1)
    simp only [xorFrom] at this
    rw [this]

theorem utf8EncodeCp_lt_256 (c : Nat) (hc : c < 1114112) : ∀ b ∈ utf8EncodeCp c, b < 256 := by
  intro b hb
  unfold utf8EncodeCp at hb
  split_ifs at hb with h1 h2 h3 <;>
    simp only [List.mem_cons, List.not_mem_nil, or_false] at hb <;> omega

theorem utf8Encode_lt_256 (us : List Nat) (h : wfUnits us = true) :
    ∀ b ∈ utf8Encode us, b < 256 := by
  induction us using utf8Encode.induct with
  | case1 =>
    intro b hb
    simp [utf8Encode] at hb
  | case2 u hu =>
    simp only [utf8Encode, if_pos hu]
    exact utf8EncodeCp_lt_256 65533 (by omega)
  | case3 u hu =>
    simp only [Bool.or_eq_true, not_or, Bool.not_eq_true] at hu
    obtain ⟨hh, hl⟩ := hu
    rw [wfUnits_single u hh, hl] at h
    simp only [Bool.not_false, Bool.true_and, decide_eq_true_eq] at h
    simp only [utf8Encode]
    rw [if_neg (by simp [hh, hl])]
    exact utf8EncodeCp_lt_256 u (by omega)
  | case4 u v rest hu hv ih =>
    rw [wfUnits_cons_hi u v rest hu, hv, Bool.true_and] at h
    have hv' : 56320 ≤ v ∧ v < 57344 := by
      simpa only [surrLo, Bool.and_eq_true, decide_eq_true_eq] using hv
    simp only [utf8Encode]
    rw [if_pos hu, if_pos hv]
    exact List.forall_mem_append.mpr ⟨utf8EncodeCp_lt_256 _ (by
      have hu' : 55296 ≤ u ∧ u < 56320 := by
        simpa only [surrHi, Bool.and_eq_true, decide_eq_true_eq] using hu
      omega), ih h⟩
  | case5 u v rest hu hv ih =>
    exfalso
    rw [wfUnits_cons_hi u v rest hu] at h
    rw [Bool.and_eq_true] at h
    exact hv h.1
  | case6 u v rest hh hl ih =>
    exfalso
    rw [wfUnits_cons2 u v rest (Bool.not_eq_true _ |>.mp hh), hl] at h
    simp at h
  | case7 u v rest hh hl ih =>
    have hh' : surrHi u = false := Bool.not_eq_true _ |>.mp hh
    have hl' : surrLo u = false := Bool.not_eq_true _ |>.mp hl
    rw [wfUnits_cons2 u v rest hh', hl'] at h
    simp only [Bool.not_false, Bool.true_and, Bool.and_eq_true, decide_eq_true_eq] at h
    simp only [utf8Encode]
    rw [if_neg (by simp [hh']), if_neg (by simp [hl'])]
    exact List.forall_mem_append.mpr ⟨utf8EncodeCp_lt_256 u (by omega), ih h.2⟩

/-- The XOR/UTF-8/base64 pipeline is the identity on every well-formed
UTF-16 string: `simpleDecrypt(simpleEncrypt(text)) = text`. -/
theorem simpleDecrypt_simpleEncrypt (text : List Nat) (h : wfUnits text = true) :
    simpleDecrypt (simpleEncrypt text) = text := by
  have hwf : wfUnits (xorFrom 0 text) = true := by
    rw [wfUnits_xorFrom]
    exact h
  unfold simpleEncrypt simpleDecrypt
  rw [b64_decode_encode _ (utf8Encode_lt_256 _ hwf), utf8_decode_encode _ hwf, xorFrom_xorFrom]

/-! ## The `api_keys` store (`secureStorage.ts`) and routes (`apiKeys.ts`) -/

/-- A runtime JavaScript value, as relevant to the JSON request bodies
(`req.body.key`); `undef` stands for an absent field. -/
inductive JSValue where
  | str (s : List Nat)
  | num (n : Int)
  | boolean (b : Bool)
  | null
  | undef
deriving DecidableEq

/-- JavaScript truthiness test applied by `!key` in the route guards. -/
def jsFalsy : JSValue → Bool
  | .str s => s.isEmpty
  | .num n => n == 0
  | .boolean b => !b
  | .null => true
  | .undef => true

/-- `typeof v === 'string'`. -/
def jsIsString : JSValue → Bool
  | .str _ => true
  | _ => false

/-- One row of the `api_keys` table; `provider` is the primary key, so the
row is stored keyed by provider.  Timestamps are opaque tokens. -/
structure ApiKeyRow where
  encrypted_key : List Nat
  label : Option (List Nat)
  created_at : Nat
  updated_at : Nat
deriving DecidableEq

/-- The `api_keys` table: an association list keyed by provider name. -/
abbrev ApiKeyDb := List (String × ApiKeyRow)

/-- `INSERT OR REPLACE` keyed on the `provider` primary key. -/
def insertOrReplace (db : ApiKeyDb) (p : String) (r : ApiKeyRow) : ApiKeyDb :=
  match db with
  | [] => [(p, r)]
  | (k, v) :: tl => if k = p then (p, r) :: tl else (k, v) :: insertOrReplace tl p r

/-- `label || null` in `stmt.run`: a falsy (empty or absent) label is
stored as NULL. -/
def normLabel : Option (List Nat) → Option (List Nat)
  | some l => if l.isEmpty then none else some l
  | none => none

/-- `storeApiKey` from `secureStorage.ts`: encrypt the key, then upsert
with `COALESCE((SELECT created_at FROM api_keys WHERE provider = ?), now)`
so the original creation time survives replacement. -/
def storeApiKey (db : ApiKeyDb) (p : String) (key : List Nat)
    (label : Option (List Nat)) (now : Nat) : ApiKeyDb :=
  let encrypted := simpleEncrypt key
  let created :=
    match db.lookup p with
    | some r => r.created_at
    | none => now
  insertOrReplace db p ⟨encrypted, normLabel label, created, now⟩

/-- `getApiKey` from `secureStorage.ts`: decrypt the stored key, `null`
when the provider has no row. -/
def getApiKey (db : ApiKeyDb) (p : String) : Option (List Nat) :=
  (db.lookup p).map fun r => simpleDecrypt r.encrypted_key

/-- `deleteApiKey` from `secureStorage.ts`. -/
def deleteApiKey (db : ApiKeyDb) (p : String) : ApiKeyDb :=
  db.filter fun e => e.1 != p

/-- Response of `POST /api/api-keys/:provider`. -/
inductive StoreResp where
  | ok
  | badRequest (error : String)
deriving DecidableEq

/-- `router.post('/:provider')` from `apiKeys.ts`: status 400 with an
`error` body when `!key || typeof key !== 'string'`, otherwise store and
answer `{success: true}`. -/
def postApiKeyRoute (db : ApiKeyDb) (p : String) (keyVal : JSValue)
    (labelVal : Option (List Nat)) (now : Nat) : StoreResp × ApiKeyDb :=
  if jsFalsy keyVal || !jsIsString keyVal then
    (.badRequest "API key is required", db)
  else
    match keyVal with
    | .str s => (.ok, storeApiKey db p s labelVal now)
    | _ => (.badRequest "API key is required", db)

/-- `router.get('/:provider')` from `apiKeys.ts`: responds `{key}` with
the stored decrypted key, or `null`. -/
def getApiKeyRoute (db : ApiKeyDb) (p : String) : Option (List Nat) :=
  getApiKey db p

/-- Response of `POST /api/api-keys/:provider/validate`. -/
structure ValidateResp where
  status : Nat
  valid : Bool
  error : Option String
  warning : Option String
deriving DecidableEq

/-- The fixed warning text of the validate endpoint. -/
def validateWarning : String :=
  "This is a basic format check only. Real validation against provider API not implemented."

/-- `router.post('/:provider/validate')` from `apiKeys.ts`: status 400
without a warning field when `!key || typeof key !== 'string'`; otherwise
`valid = key.length > 0` with the fixed warning. -/
def validateApiKeyRoute (keyVal : JSValue) : ValidateResp :=
  if jsFalsy keyVal || !jsIsString keyVal then
    ⟨400, false, some "API key is required", none⟩
  else
    match keyVal with
    | .str s =>
      let valid := decide (s.length > 0)
      ⟨200, valid, if valid then none else some "Invalid API key format", some validateWarning⟩
    | _ => ⟨400, false, some "API key is required", none⟩

/-- The route guard `!key || typeof key !== 'string'` fires exactly when
the body's key is not a non-empty string. -/
theorem keyGuard_iff (v : JSValue) :
    (jsFalsy v || !jsIsString v) = true ↔ ∀ s, v = .str s → s = [] := by
  cases v <;> simp [jsFalsy, jsIsString, List.isEmpty_iff]

theorem lookup_insertOrReplace_self (db : ApiKeyDb) (p : String) (r : ApiKeyRow) :
    (insertOrReplace db p r).lookup p = some r := by
  induction db with
  | nil => simp [insertOrReplace]
  | cons e tl ih =>
    obtain ⟨k, v⟩ := e
    by_cases hk : k = p
    · subst hk
      simp [insertOrReplace]
    · have hpk : (p == k) = false := by simp [Ne.symm hk]
      simp only [insertOrReplace, if_neg hk, List.lookup_cons, hpk]
      exact ih

theorem lookup_insertOrReplace_other (db : ApiKeyDb) (p q : String) (r : ApiKeyRow)
    (hq : q ≠ p) : (insertOrReplace db p r).lookup q = db.lookup q := by
  have hqp : (q == p) = false := by simp [hq]
  induction db with
  | nil => simp [insertOrReplace, List.lookup_cons, hqp]
  | cons e tl ih =>
    obtain ⟨k, v⟩ := e
    by_cases hk : k = p
    · subst hk
      simp only [insertOrReplace, if_true, List.lookup_cons, hqp]
    · simp only [insertOrReplace, if_neg hk, List.lookup_cons]
      by_cases hqk : (q == k) = true
      · simp only [hqk]
      · simp only [Bool.not_eq_true] at hqk
        simp only [hqk]
        exact ih

/-! ## Environment detector (`environment.ts`) and facade (`accomplish.ts`) -/

/-- The `window.accomplishShell` marker object.  Its `isElectron` field is
declared `boolean` but is an arbitrary runtime value. -/
structure ShellMarker where
  isElectron : JSValue
deriving DecidableEq

/-- The ambient `window` object: the shell marker and the native bridge
(`window.accomplish`), each possibly absent; the bridge is opaque. -/
structure WindowState where
  accomplishShell : Option ShellMarker
  accomplish : Option Unit
deriving DecidableEq

/-- The ambient global state; `window` itself may be undefined. -/
structure GlobalState where
  window : Option WindowState
deriving DecidableEq

/-- `isElectron` from `environment.ts`: `typeof window !== 'undefined' &&
window.accomplishShell !== undefined &&
window.accomplishShell.isElectron === true`.  A total function of the
ambient state: no exception is possible. -/
def isElectron (g : GlobalState) : Bool :=
  match g.window with
  | none => false
  | some w =>
    match w.accomplishShell with
    | none => false
    | some sh => sh.isElectron == JSValue.boolean true

/-- The two runtime modes of `getRuntimeMode` in `environment.ts`. -/
inductive RuntimeMode where
  | electron
  | browser
deriving DecidableEq

/-- `getRuntimeMode` from `environment.ts`. -/
def getRuntimeMode (g : GlobalState) : RuntimeMode :=
  if isElectron g then .electron else .browser

/-- The two implementations `getAccomplish` can return. -/
inductive Facade where
  | browser
  | native
deriving DecidableEq

/-- The error thrown by `getAccomplish` when Electron is detected but
`window.accomplish` is absent (spec taxonomy: ConfigurationError). -/
inductive ConfigError where
  | missingNativeBridge
deriving DecidableEq

/-- `window.accomplish`, or `none` when `window` or the bridge is absent. -/
def bridgeOf (g : GlobalState) : Option Unit :=
  match g.window with
  | some w => w.accomplish
  | none => none

/-- `getAccomplish` from `accomplish.ts`: when `isElectron()` is false it
returns the browser HTTP/WS wrapper (never throws); otherwise it throws
iff `window.accomplish` is absent and else returns the (spread) bridge. -/
def getAccomplish (g : GlobalState) : Except ConfigError Facade :=
  if isElectron g = false then .ok .browser
  else
    match bridgeOf g with
    | none => .error .missingNativeBridge
    | some _ => .ok .native

/-- The implementation a capability call is routed through. -/
inductive Impl where
  | remote
  | native
deriving DecidableEq

/-- The implementation baked into a facade object at construction. -/
def facadeImpl : Facade → Impl
  | .browser => .remote
  | .native => .native

/-- A capability call on an already-constructed facade object: browser
facade methods delegate to the `browserApi` singleton, native ones to the
captured bridge; neither consults the ambient state at call time again
(`gAtCall` is ignored — there is no re-detection inside a facade). -/
def routeCall (f : Facade) (_gAtCall : GlobalState) : Impl :=
  facadeImpl f

/-! ## Browser event-channel client (`browserApi.ts`) -/

/-- State of one `BrowserApiClient`: the `eventListeners` map (channel →
insertion-ordered callback set), the `ws` field, the list of live
(unclosed) WebSocket objects, a fresh-id counter for new sockets, and the
queue of pending `setTimeout` reconnect delays in milliseconds. -/
structure ClientState where
  eventListeners : List (String × List Nat)
  ws : Option Nat
  live : List Nat
  nextId : Nat
  pending : List Nat
deriving DecidableEq

/-- `connectWebSocket` from `browserApi.ts`: `if (this.ws) return;` then
`this.ws = new WebSocket(this.wsUrl)`. -/
def connectWebSocket (s : ClientState) : ClientState :=
  if s.ws.isSome then s
  else { s with ws := some s.nextId, live := s.live ++ [s.nextId], nextId := s.nextId + 1 }

/-- The listener-registration part of `on`: `if (!map.has(channel))
map.set(channel, new Set()); map.get(channel).add(callback)`.  JS
`Set.add` appends only when the element is new. -/
def addListener (m : List (String × List Nat)) (ch : String) (cb : Nat) :
    List (String × List Nat) :=
  let m1 := if (m.lookup ch).isSome then m else m ++ [(ch, [])]
  m1.map fun e => if e.1 = ch then (ch, if cb ∈ e.2 then e.2 else e.2 ++ [cb]) else e

/-- The cleanup closure returned by `on`: `listeners.delete(callback)` on
that channel's set only. -/
def removeListener (m : List (String × List Nat)) (ch : String) (cb : Nat) :
    List (String × List Nat) :=
  m.map fun e => if e.1 = ch then (ch, e.2.erase cb) else e

/-- `on(channel, callback)` from `browserApi.ts`. -/
def clientOn (s : ClientState) (ch : String) (cb : Nat) : ClientState :=
  connectWebSocket { s with eventListeners := addListener s.eventListeners ch cb }

/-- Invoking the unsubscribe closure returned by `on`. -/
def clientOff (s : ClientState) (ch : String) (cb : Nat) : ClientState :=
  { s with eventListeners := removeListener s.eventListeners ch cb }

/-- An incoming WebSocket frame: either text on which `JSON.parse` throws,
or a parsed `{channel, data}` envelope (`channel` may be absent). -/
inductive WireMsg where
  | malformed
  | envelope (channel : Option String) (data : Nat)
deriving DecidableEq

/-- `ws.onmessage` from `browserApi.ts`: a parse failure is caught and
only logged; otherwise every callback registered for the embedded channel
is invoked with the data.  Returns the state after the handler (always
unchanged) and the list of (callback, data) invocations made. -/
def handleMessage (s : ClientState) (m : WireMsg) : ClientState × List (Nat × Nat) :=
  match m with
  | .malformed => (s, [])
  | .envelope none _ => (s, [])
  | .envelope (some ch) d =>
    (s, match s.eventListeners.lookup ch with
        | some ls => ls.map fun cb => (cb, d)
        | none => [])

/-- `ws.onclose` from `browserApi.ts`: `this.ws = null;
setTimeout(() => this.connectWebSocket(), 1000)`. -/
def handleClose (s : ClientState) : ClientState :=
  match s.ws with
  | some c => { s with ws := none, live := s.live.erase c, pending := s.pending ++ [1000] }
  | none => s

/-- A scheduled reconnect timer firing: runs `connectWebSocket`. -/
def fireReconnect (s : ClientState) : ClientState :=
  match s.pending with
  | _ :: rest => connectWebSocket { s with pending := rest }
  | [] => s

/-- Client events: subscribe, unsubscribe, socket closure, reconnect timer
firing, incoming frame. -/
inductive ClientEv where
  | on (ch : String) (cb : Nat)
  | off (ch : String) (cb : Nat)
  | close
  | fire
  | msg (m : WireMsg)
deriving DecidableEq

/-- One event-loop step of the client. -/
def stepClient (s : ClientState) : ClientEv → ClientState
  | .on ch cb => clientOn s ch cb
  | .off ch cb => clientOff s ch cb
  | .close => handleClose s
  | .fire => fireReconnect s
  | .msg m => (handleMessage s m).1

/-- Run a sequence of client events. -/
def runClient (s : ClientState) : List ClientEv → ClientState
  | [] => s
  | e :: es => runClient (stepClient s e) es

/-- A freshly constructed `BrowserApiClient`: empty listener map, no
WebSocket, nothing scheduled. -/
def initClient : ClientState := ⟨[], none, [], 0, []⟩

/-- The callback set registered for a channel (empty when the channel has
no entry). -/
def listenersOf (s : ClientState) (ch : String) : List Nat :=
  (s.eventListeners.lookup ch).getD []

/-! ## Lemmas about the listener map and the client transition system -/

theorem lookup_update (m : List (String × List Nat)) (ch q : String)
    (f : List Nat → List Nat) :
    (m.map fun e => if e.1 = ch then (ch, f e.2) else e).lookup q =
      if q = ch then (m.lookup ch).map f else m.lookup q := by
  induction m with
  | nil => by_cases hq : q = ch <;> simp [hq]
  | cons e tl ih =>
    obtain ⟨k, v⟩ := e
    by_cases hk : k = ch
    · subst hk
      by_cases hq : q = k
      · subst hq
        simp [List.lookup_cons]
      · have h1 : (q == k) = false := by simp [hq]
        simp only [List.map_cons, if_true, List.lookup_cons, h1, ih, if_neg hq]
    · by_cases hq : q = k
      · subst hq
        simp only [List.map_cons, if_neg hk, List.lookup_cons, beq_self_eq_true]
      · have h3 : (q == k) = false := by simp [hq]
        have h4 : (ch == k) = false := by simp [Ne.symm hk]
        simp only [List.map_cons, if_neg hk, List.lookup_cons, h3, h4, ih]

theorem lookup_append_one (m : List (String × List Nat)) (ch q : String) (l : List Nat) :
    (m ++ [(ch, l)]).lookup q =
      (m.lookup q).or (if q = ch then some l else none) := by
  induction m with
  | nil =>
    by_cases hq : q = ch
    · subst hq
      simp [List.lookup_cons]
    · have h1 : (q == ch) = false := by simp [hq]
      simp [List.lookup_cons, h1, hq]
  | cons e tl ih =>
    obtain ⟨k, v⟩ := e
    by_cases hq : q = k
    · subst hq
      simp [List.lookup_cons]
    · have h1 : (q == k) = false := by simp [hq]
      simp only [List.cons_append, List.lookup_cons, h1, ih]

theorem lookup_addListener_self (m : List (String × List Nat)) (ch : String) (cb : Nat) :
    (addListener m ch cb).lookup ch =
      some (if cb ∈ (m.lookup ch).getD [] then (m.lookup ch).getD []
            else (m.lookup ch).getD [] ++ [cb]) := by
  unfold addListener
  by_cases hl : (m.lookup ch).isSome
  · rw [if_pos hl, lookup_update m ch ch (fun l => if cb ∈ l then l else l ++ [cb]), if_pos rfl]
    obtain ⟨l, hl2⟩ := Option.isSome_iff_exists.mp hl
    simp [hl2]
  · have hl2 : m.lookup ch = none := Option.not_isSome_iff_eq_none.mp hl
    rw [if_neg hl,
        lookup_update (m ++ [(ch, [])]) ch ch (fun l => if cb ∈ l then l else l ++ [cb]),
        if_pos rfl, lookup_append_one]
    simp [hl2]

theorem lookup_addListener_other (m : List (String × List Nat)) (ch q : String) (cb : Nat)
    (hq : q ≠ ch) : (addListener m ch cb).lookup q = m.lookup q := by
  unfold addListener
  by_cases hl : (m.lookup ch).isSome
  · rw [if_pos hl, lookup_update m ch q (fun l => if cb ∈ l then l else l ++ [cb]), if_neg hq]
  · rw [if_neg hl,
        lookup_update (m ++ [(ch, [])]) ch q (fun l => if cb ∈ l then l else l ++ [cb]),
        if_neg hq, lookup_append_one]
    simp [hq]

theorem lookup_removeListener (m : List (String × List Nat)) (ch q : String) (cb : Nat) :
    (removeListener m ch cb).lookup q =
      if q = ch then (m.lookup ch).map (fun l => l.erase cb) else m.lookup q := by
  unfold removeListener
  rw [lookup_update m ch q (fun l => l.erase cb)]

theorem eventListeners_connectWebSocket (s : ClientState) :
    (connectWebSocket s).eventListeners = s.eventListeners := by
  unfold connectWebSocket
  split <;> rfl

theorem listenersOf_clientOn (s : ClientState) (ch q : String) (cb : Nat) :
    listenersOf (clientOn s ch cb) q =
      if q = ch then
        (if cb ∈ listenersOf s ch then listenersOf s ch else listenersOf s ch ++ [cb])
      else listenersOf s q := by
  unfold listenersOf clientOn
  rw [eventListeners_connectWebSocket]
  show ((addListener s.eventListeners ch cb).lookup q).getD [] = _
  by_cases hq : q = ch
  · subst hq
    rw [lookup_addListener_self, if_pos rfl]
    rfl
  · rw [lookup_addListener_other _ _ _ _ hq, if_neg hq]

theorem listenersOf_clientOff (s : ClientState) (ch q : String) (cb : Nat) :
    listenersOf (clientOff s ch cb) q =
      if q = ch then (listenersOf s ch).erase cb else listenersOf s q := by
  unfold listenersOf clientOff
  show ((removeListener s.eventListeners ch cb).lookup q).getD [] = _
  rw [lookup_removeListener]
  by_cases hq : q = ch
  · subst hq
    rw [if_pos rfl, if_pos rfl]
    cases hl : s.eventListeners.lookup q with
    | some l => simp
    | none => simp
  · rw [if_neg hq, if_neg hq]

/-! ## Concrete ambient states used by witnesses and counterexamples -/

/-- A plain browser tab: `window` exists, no marker, no bridge. -/
def gBrowser : GlobalState := ⟨some ⟨none, none⟩⟩

/-- An Electron renderer: marker with `isElectron: true` and the bridge. -/
def gElectron : GlobalState := ⟨some ⟨some ⟨.boolean true⟩, some ()⟩⟩

/-- Marker claims Electron but the native bridge is not installed. -/
def gElectronNoBridge : GlobalState := ⟨some ⟨some ⟨.boolean true⟩, none⟩⟩

/-! ## Claim theorems: detector and facade -/

/-- **C2**: the environment detector reports Native (electron) iff the
global marker object `window.accomplishShell` exists and its `isElectron`
field is exactly `true`; in every other ambient state — `window` absent,
marker absent, flag absent, falsy, or not exactly `true` — it reports
Remote (browser).  `isElectron` and `getRuntimeMode` are total functions
of the ambient state, so no exception can be thrown. -/
theorem c2_detector_native_iff_marker (g : GlobalState) :
    getRuntimeMode g = RuntimeMode.electron ↔
      ∃ w sh, g.window = some w ∧ w.accomplishShell = some sh ∧
        sh.isElectron = JSValue.boolean true := by
  obtain ⟨w⟩ := g
  cases w with
  | none => simp [getRuntimeMode, isElectron]
  | some ws =>
    obtain ⟨osh, obr⟩ := ws
    cases osh with
    | none => simp [getRuntimeMode, isElectron]
    | some sh =>
      by_cases hflag : sh.isElectron = JSValue.boolean true
      · simp [getRuntimeMode, isElectron, hflag]
      · simp [getRuntimeMode, isElectron, hflag]

/-- **C2 witness** at the concrete Electron state. -/
theorem c2_witness : getRuntimeMode gElectron = RuntimeMode.electron :=
  (c2_detector_native_iff_marker gElectron).mpr
    ⟨⟨some ⟨JSValue.boolean true⟩, some ()⟩, ⟨JSValue.boolean true⟩, rfl, rfl, rfl⟩

/-- **C3**: when the detector reports Remote, `getAccomplish` never
throws and returns the browser adapter; when it reports Native,
`getAccomplish` throws the ConfigurationError iff the native bridge
global `window.accomplish` is absent, and otherwise returns the native
capability object. -/
theorem c3_getAccomplish_spec (g : GlobalState) :
    (isElectron g = false → getAccomplish g = .ok .browser) ∧
    (isElectron g = true →
      ((getAccomplish g = .error .missingNativeBridge) ↔ bridgeOf g = none) ∧
      (∀ b, bridgeOf g = some b → getAccomplish g = .ok .native)) := by
  constructor
  · intro h
    unfold getAccomplish
    rw [if_pos h]
  · intro h
    unfold getAccomplish
    rw [if_neg (by simp [h])]
    constructor
    · cases hb : bridgeOf g <;> simp
    · intro b hb
      rw [hb]

/-- **C3 witness** at the three concrete states. -/
theorem c3_witness :
    getAccomplish gBrowser = .ok .browser ∧
    getAccomplish gElectronNoBridge = .error .missingNativeBridge ∧
    getAccomplish gElectron = .ok .native :=
  ⟨(c3_getAccomplish_spec gBrowser).1 (by decide),
   ((c3_getAccomplish_spec gElectronNoBridge).2 (by decide)).1.mpr (by decide),
   ((c3_getAccomplish_spec gElectron).2 (by decide)).2 () (by decide)⟩

/-- **C4 counterexample**: the RuntimeMode verdict is not immutable for
the lifetime of the process.  `getAccomplish` re-reads the ambient marker
on every call, so two facade constructions within one process observe
different verdicts when the marker changes in between: at `gBrowser` it
yields the remote implementation, at `gElectron` the native one. -/
theorem c4_counterexample :
    ¬(∀ g1 g2 f1 f2, getAccomplish g1 = .ok f1 → getAccomplish g2 = .ok f2 →
        facadeImpl f1 = facadeImpl f2) := by
  intro hall
  exact absurd (hall gBrowser gElectron .browser .native rfl rfl) (by decide)

/-- **C4 (amended)**: the verdict is computed at facade construction and
is immutable for the lifetime of that facade: every capability call in
any sequence of later ambient states is routed through the implementation
matching the construction-time verdict, even if the global marker object
changes between the calls (no re-detection, no mixing within a facade). -/
theorem c4_mode_stable_per_facade (g : GlobalState) (f : Facade)
    (h : getAccomplish g = .ok f) (gs : List GlobalState) :
    ∀ gAt ∈ gs, routeCall f gAt = (if isElectron g then Impl.native else Impl.remote) := by
  intro gAt _
  unfold routeCall
  unfold getAccomplish at h
  by_cases he : isElectron g = false
  · rw [if_pos he] at h
    cases h
    rw [if_neg (by simp [he])]
    rfl
  · rw [if_neg he] at h
    have he' : isElectron g = true := by
      cases hg : isElectron g
      · exact absurd hg he
      · rfl
    rw [if_pos he']
    cases hb : bridgeOf g with
    | none =>
      rw [hb] at h
      cases h
    | some b =>
      rw [hb] at h
      cases h
      rfl

/-- **C4 witness**: a facade constructed at the browser state keeps
routing remotely even when called while the Electron marker is present. -/
theorem c4_witness : routeCall .browser gElectron = Impl.remote := by
  have h := c4_mode_stable_per_facade gBrowser .browser rfl [gElectron] gElectron (by simp)
  exact h.trans (by decide)

/-! ## Claim theorems: event channel -/

/-- **C6**: an event-channel payload that fails to parse as a JSON
envelope is dropped silently: the `onmessage` handler does not throw
(`handleMessage` is a total function), delivers the payload to no
subscriber on any channel (the invocation list is empty), and leaves the
subscription map and the connection — the whole client state — unchanged;
the failure is only logged. -/
theorem c6_malformed_dropped (s : ClientState) :
    handleMessage s WireMsg.malformed = (s, []) := rfl

theorem listenersOf_congr (s1 s2 : ClientState) (ch : String)
    (h : s1.eventListeners = s2.eventListeners) : listenersOf s1 ch = listenersOf s2 ch := by
  unfold listenersOf
  rw [h]

theorem eventListeners_handleClose (s : ClientState) :
    (handleClose s).eventListeners = s.eventListeners := by
  obtain ⟨m, w, l, n, p⟩ := s
  cases w <;> rfl

theorem eventListeners_fireReconnect (s : ClientState) :
    (fireReconnect s).eventListeners = s.eventListeners := by
  obtain ⟨m, w, l, n, p⟩ := s
  cases p with
  | nil => rfl
  | cons d rest => exact eventListeners_connectWebSocket _

theorem eventListeners_handleMessage (s : ClientState) (m : WireMsg) :
    (handleMessage s m).1.eventListeners = s.eventListeners := by
  cases m with
  | malformed => rfl
  | envelope och d => cases och <;> rfl

theorem pending_connectWebSocket (s : ClientState) :
    (connectWebSocket s).pending = s.pending := by
  unfold connectWebSocket
  split <;> rfl

theorem handleMessage_snd_congr (s1 s2 : ClientState) (m : WireMsg)
    (h : s1.eventListeners = s2.eventListeners) :
    (handleMessage s1 m).2 = (handleMessage s2 m).2 := by
  cases m with
  | malformed => rfl
  | envelope och d =>
    cases och with
    | none => rfl
    | some ch => simp only [handleMessage, h]

/-- Every callback invoked by a dispatch on `ch` is registered for `ch`. -/
theorem handleMessage_invoked_mem (s : ClientState) (ch : String) (d : Nat)
    (pr : Nat × Nat) (h : pr ∈ (handleMessage s (.envelope (some ch) d)).2) :
    pr.1 ∈ listenersOf s ch := by
  unfold handleMessage at h
  simp only at h
  unfold listenersOf
  cases hl : s.eventListeners.lookup ch with
  | some ls =>
    rw [hl] at h
    simp only at h
    rcases List.mem_map.mp h with ⟨cb, hcb, hpr⟩
    simp [hl, ← hpr, hcb]
  | none =>
    rw [hl] at h
    simp at h

/-- Non-membership in a channel's listener set is preserved by every
client event except re-subscribing that very callback on that channel. -/
theorem not_mem_listeners_step (s : ClientState) (ch : String) (cb : Nat) (e : ClientEv)
    (h : cb ∉ listenersOf s ch) (he : e ≠ .on ch cb) :
    cb ∉ listenersOf (stepClient s e) ch := by
  cases e
  case «on» q cb2 =>
    show cb ∉ listenersOf (clientOn s q cb2) ch
    rw [listenersOf_clientOn]
    by_cases hq : ch = q
    · subst hq
      rw [if_pos rfl]
      have hcb2 : cb2 ≠ cb := by
        rintro rfl
        exact he rfl
      by_cases hmem : cb2 ∈ listenersOf s ch
      · rw [if_pos hmem]
        exact h
      · rw [if_neg hmem]
        intro hc
        rcases List.mem_append.mp hc with hc | hc
        · exact h hc
        · simp at hc
          exact hcb2 hc.symm
    · rw [if_neg hq]
      exact h
  case off q cb2 =>
    show cb ∉ listenersOf (clientOff s q cb2) ch
    rw [listenersOf_clientOff]
    by_cases hq : ch = q
    · subst hq
      rw [if_pos rfl]
      intro hc
      exact h (List.mem_of_mem_erase hc)
    · rw [if_neg hq]
      exact h
  case close =>
    show cb ∉ listenersOf (handleClose s) ch
    rw [listenersOf_congr _ s _ (eventListeners_handleClose s)]
    exact h
  case fire =>
    show cb ∉ listenersOf (fireReconnect s) ch
    rw [listenersOf_congr _ s _ (eventListeners_fireReconnect s)]
    exact h
  case msg m =>
    show cb ∉ listenersOf (handleMessage s m).1 ch
    rw [listenersOf_congr _ s _ (eventListeners_handleMessage s m)]
    exact h

theorem not_mem_listeners_run (s : ClientState) (ch : String) (cb : Nat)
    (evs : List ClientEv) (h : cb ∉ listenersOf s ch) (hev : ClientEv.on ch cb ∉ evs) :
    cb ∉ listenersOf (runClient s evs) ch := by
  induction evs generalizing s with
  | nil => exact h
  | cons e es ih =>
    have he : e ≠ .on ch cb := by
      rintro rfl
      exact hev (List.mem_cons_self _ _)
    exact ih (stepClient s e) (not_mem_listeners_step s ch cb e h he)
      (fun hc => hev (List.mem_cons_of_mem _ hc))

/-- `Set.add` keeps the listener set duplicate-free. -/
theorem nodup_add (l : List Nat) (cb : Nat) (h : l.Nodup) :
    (if cb ∈ l then l else l ++ [cb]).Nodup := by
  by_cases hm : cb ∈ l
  · rw [if_pos hm]
    exact h
  · rw [if_neg hm]
    simp [List.nodup_append, h, hm]

/-- **C5**: `subscribe(channel, cb)` followed immediately by the returned
unsubscribe guarantees `cb` is never invoked by any later message
dispatch on that channel (through any further event sequence that does
not re-subscribe it); the unsubscribe removes only that callback from
that channel's set — every other subscription of every channel is
unchanged — and it never touches the underlying WebSocket connection.
The Nodup hypothesis is the JS `Set` representation invariant. -/
theorem c5_unsubscribe_spec (s : ClientState) (ch : String) (cb : Nat)
    (hnd : (listenersOf s ch).Nodup) :
    (∀ evs : List ClientEv, ClientEv.on ch cb ∉ evs →
      ∀ d, ∀ pr ∈ (handleMessage (runClient (clientOff (clientOn s ch cb) ch cb) evs)
        (WireMsg.envelope (some ch) d)).2, pr.1 ≠ cb) ∧
    (∀ q cb2, ¬(q = ch ∧ cb2 = cb) →
      (cb2 ∈ listenersOf (clientOff (clientOn s ch cb) ch cb) q ↔
        cb2 ∈ listenersOf (clientOn s ch cb) q)) ∧
    (clientOff (clientOn s ch cb) ch cb).ws = (clientOn s ch cb).ws ∧
    (clientOff (clientOn s ch cb) ch cb).live = (clientOn s ch cb).live ∧
    (clientOff (clientOn s ch cb) ch cb).pending = (clientOn s ch cb).pending := by
  have hnd1 : (listenersOf (clientOn s ch cb) ch).Nodup := by
    rw [listenersOf_clientOn, if_pos rfl]
    exact nodup_add _ _ hnd
  have hout : cb ∉ listenersOf (clientOff (clientOn s ch cb) ch cb) ch := by
    rw [listenersOf_clientOff, if_pos rfl]
    exact hnd1.not_mem_erase
  refine ⟨?_, ?_, rfl, rfl, rfl⟩
  · intro evs hev d pr hpr
    have hmem := handleMessage_invoked_mem _ _ _ _ hpr
    have hnot := not_mem_listeners_run _ ch cb evs hout hev
    intro hc
    rw [hc] at hmem
    exact hnot hmem
  · intro q cb2 hne
    rw [listenersOf_clientOff]
    by_cases hq : q = ch
    · subst hq
      rw [if_pos rfl]
      have hcb2 : cb2 ≠ cb := fun hc => hne ⟨rfl, hc⟩
      exact List.mem_erase_of_ne hcb2
    · rw [if_neg hq]

/-- **C5 witness**: a concrete subscribe/unsubscribe pair on an empty
client: a dispatch on the channel invokes nothing, the socket survives. -/
theorem c5_witness :
    (∀ pr ∈ (handleMessage (runClient (clientOff (clientOn initClient "task:update" 7)
        "task:update" 7) []) (WireMsg.envelope (some "task:update") 3)).2, pr.1 ≠ 7) ∧
    (clientOff (clientOn initClient "task:update" 7) "task:update" 7).ws =
      (clientOn initClient "task:update" 7).ws := by
  have h := c5_unsubscribe_spec initClient "task:update" 7 (by decide)
  exact ⟨fun pr hpr => h.1 [] (by simp) 3 pr hpr, h.2.2.1⟩

theorem fireReconnect_cons (s : ClientState) (d : Nat) (rest : List Nat)
    (h : s.pending = d :: rest) :
    fireReconnect s = connectWebSocket { s with pending := rest } := by
  unfold fireReconnect
  rw [h]

theorem ws_connectWebSocket_isSome (s : ClientState) :
    (connectWebSocket s).ws.isSome = true := by
  unfold connectWebSocket
  by_cases h : s.ws.isSome
  · rw [if_pos h]
    exact h
  · rw [if_neg h]
    rfl

theorem pending_step_1000 (s : ClientState) (e : ClientEv)
    (h : ∀ d ∈ s.pending, d = 1000) : ∀ d ∈ (stepClient s e).pending, d = 1000 := by
  cases e
  case «on» q cb2 =>
    show ∀ d ∈ (clientOn s q cb2).pending, d = 1000
    unfold clientOn
    rw [pending_connectWebSocket]
    exact h
  case off q cb2 => exact h
  case close =>
    show ∀ d ∈ (handleClose s).pending, d = 1000
    unfold handleClose
    cases hw : s.ws with
    | some c =>
      intro d hd
      rcases List.mem_append.mp hd with hd | hd
      · exact h d hd
      · simp at hd
        exact hd
    | none => exact h
  case fire =>
    show ∀ d ∈ (fireReconnect s).pending, d = 1000
    cases hp : s.pending with
    | nil =>
      unfold fireReconnect
      rw [hp]
      intro d hd
      exact h d hd
    | cons d0 rest =>
      rw [fireReconnect_cons s d0 rest hp, pending_connectWebSocket]
      intro d hd
      exact h d (by rw [hp]; exact List.mem_cons_of_mem _ hd)
  case msg m =>
    show ∀ d ∈ (handleMessage s m).1.pending, d = 1000
    cases m with
    | malformed => exact h
    | envelope och dd => cases och <;> exact h

theorem pending_run_1000 (s : ClientState) (evs : List ClientEv)
    (h : ∀ d ∈ s.pending, d = 1000) : ∀ d ∈ (runClient s evs).pending, d = 1000 := by
  induction evs generalizing s with
  | nil => exact h
  | cons e es ih => exact ih _ (pending_step_1000 s e h)

/-- **C8**: when the channel closes while a connection exists, exactly
one reconnect attempt is scheduled, with the fixed delay of 1000 ms, and
the subscription map is untouched; in any event sequence every scheduled
delay is that same 1000 ms (no backoff growth, no retry counter); firing
the scheduled attempt reopens a connection, and dispatches after the
close/reconnect cycle invoke exactly the same subscribers as before —
no re-subscription needed. -/
theorem c8_reconnect_policy (s : ClientState) :
    (∀ c, s.ws = some c →
      (handleClose s).pending = s.pending ++ [1000] ∧
      (handleClose s).eventListeners = s.eventListeners ∧
      (fireReconnect (handleClose s)).ws.isSome = true ∧
      (fireReconnect (handleClose s)).eventListeners = s.eventListeners ∧
      ∀ m, (handleMessage (fireReconnect (handleClose s)) m).2 =
        (handleMessage s m).2) ∧
    (∀ evs, (∀ d ∈ s.pending, d = 1000) →
      ∀ d ∈ (runClient s evs).pending, d = 1000) := by
  constructor
  · intro c hc
    have h1 : handleClose s =
        { s with ws := none, live := s.live.erase c, pending := s.pending ++ [1000] } := by
      unfold handleClose
      rw [hc]
    have hfe : (fireReconnect (handleClose s)).eventListeners = s.eventListeners := by
      rw [eventListeners_fireReconnect, eventListeners_handleClose]
    refine ⟨by rw [h1], by rw [h1], ?_, hfe, ?_⟩
    · rw [h1]
      cases hp : s.pending with
      | nil =>
        rw [fireReconnect_cons _ 1000 [] (by simp [hp])]
        exact ws_connectWebSocket_isSome _
      | cons d0 r =>
        rw [fireReconnect_cons _ d0 (r ++ [1000]) (by simp [hp])]
        exact ws_connectWebSocket_isSome _
    · intro m
      exact handleMessage_snd_congr _ _ m hfe
  · intro evs h
    exact pending_run_1000 s evs h

/-- A concrete client with one open socket and one subscriber. -/
def sOpenWitness : ClientState := ⟨[("task:update", [7])], some 0, [0], 1, []⟩

/-- **C8 witness** at the concrete open client. -/
theorem c8_witness :
    (handleClose sOpenWitness).pending = [1000] ∧
    (fireReconnect (handleClose sOpenWitness)).ws.isSome = true := by
  have h := (c8_reconnect_policy sOpenWitness).1 0 rfl
  exact ⟨h.1, h.2.2.1⟩

/-- The representation invariant of the connection fields: the `live`
connection list is exactly the one socket stored in `ws`, or empty. -/
def connInv (s : ClientState) : Prop :=
  match s.ws with
  | some c => s.live = [c]
  | none => s.live = []

theorem connInv_connect (s : ClientState) (h : connInv s) :
    connInv (connectWebSocket s) := by
  unfold connectWebSocket
  by_cases hw : s.ws.isSome
  · rw [if_pos hw]
    exact h
  · rw [if_neg hw]
    have hn : s.ws = none := Option.not_isSome_iff_eq_none.mp hw
    unfold connInv at h ⊢
    rw [hn] at h
    simp [h]

theorem connInv_step (s : ClientState) (e : ClientEv) (h : connInv s) :
    connInv (stepClient s e) := by
  cases e
  case «on» q cb =>
    show connInv (clientOn s q cb)
    exact connInv_connect _ h
  case off q cb => exact h
  case close =>
    show connInv (handleClose s)
    unfold handleClose
    cases hw : s.ws with
    | some c =>
      unfold connInv at h
      rw [hw] at h
      unfold connInv
      simp [h]
    | none => exact h
  case fire =>
    show connInv (fireReconnect s)
    unfold fireReconnect
    cases hp : s.pending with
    | nil => exact h
    | cons d r => exact connInv_connect _ h
  case msg m =>
    show connInv (handleMessage s m).1
    cases m with
    | malformed => exact h
    | envelope och d => cases och <;> exact h

theorem connInv_run (s : ClientState) (evs : List ClientEv) (h : connInv s) :
    connInv (runClient s evs) := by
  induction evs generalizing s with
  | nil => exact h
  | cons e es ih => exact ih _ (connInv_step s e h)

theorem noConn_step (s : ClientState) (e : ClientEv)
    (h : s.ws = none ∧ s.live = [] ∧ s.pending = [])
    (he : ∀ ch cb, e ≠ .on ch cb) :
    (stepClient s e).ws = none ∧ (stepClient s e).live = [] ∧
      (stepClient s e).pending = [] := by
  obtain ⟨h1, h2, h3⟩ := h
  cases e
  case «on» ch cb => exact absurd rfl (he ch cb)
  case off ch cb => exact ⟨h1, h2, h3⟩
  case close =>
    show (handleClose s).ws = none ∧ (handleClose s).live = [] ∧ (handleClose s).pending = []
    unfold handleClose
    rw [h1]
    exact ⟨h1, h2, h3⟩
  case fire =>
    show (fireReconnect s).ws = none ∧ (fireReconnect s).live = [] ∧
      (fireReconnect s).pending = []
    unfold fireReconnect
    rw [h3]
    exact ⟨h1, h2, h3⟩
  case msg m =>
    cases m with
    | malformed => exact ⟨h1, h2, h3⟩
    | envelope och d => cases och <;> exact ⟨h1, h2, h3⟩

theorem noConn_run (s : ClientState) (evs : List ClientEv)
    (h : s.ws = none ∧ s.live = [] ∧ s.pending = [])
    (hev : ∀ ch cb, ClientEv.on ch cb ∉ evs) :
    (runClient s evs).ws = none ∧ (runClient s evs).live = [] ∧
      (runClient s evs).pending = [] := by
  induction evs generalizing s with
  | nil => exact h
  | cons e es ih =>
    have he : ∀ ch cb, e ≠ ClientEv.on ch cb := by
      intro ch cb hc
      subst hc
      exact hev ch cb (List.mem_cons_self _ _)
    exact ih _ (noConn_step s e h he)
      (fun ch cb hc => hev ch cb (List.mem_cons_of_mem _ hc))

/-- **C9**: per client instance at most one live WebSocket exists at any
time through every subscribe/close/reconnect sequence; creation is lazy —
no connection exists before the first subscribe; a subscribe opens one;
and `connectWebSocket` is a no-op whenever a connection object is already
present (the `if (this.ws) return` guard). -/
theorem c9_single_lazy_connection (evs : List ClientEv) :
    (runClient initClient evs).live.length ≤ 1 ∧
    ((∀ ch cb, ClientEv.on ch cb ∉ evs) →
      (runClient initClient evs).ws = none ∧ (runClient initClient evs).live = []) ∧
    (∀ s : ClientState, ∀ ch cb, (stepClient s (.on ch cb)).ws.isSome = true) ∧
    (∀ s : ClientState, s.ws.isSome = true → connectWebSocket s = s) := by
  refine ⟨?_, ?_, ?_, ?_⟩
  · have h := connInv_run initClient evs (by simp [connInv, initClient])
    unfold connInv at h
    cases hw : (runClient initClient evs).ws with
    | some c =>
      rw [hw] at h
      simp [h]
    | none =>
      rw [hw] at h
      simp [h]
  · intro hno
    have h := noConn_run initClient evs ⟨rfl, rfl, rfl⟩ hno
    exact ⟨h.1, h.2.1⟩
  · intro s ch cb
    exact ws_connectWebSocket_isSome _
  · intro s hw
    unfold connectWebSocket
    rw [if_pos hw]

/-- **C9 witness**: a concrete subscribe/close/reconnect sequence keeps
at most one live socket, and the guard is a no-op on an open client. -/
theorem c9_witness :
    (runClient initClient
      [ClientEv.on "task:update" 7, ClientEv.close, ClientEv.fire]).live.length ≤ 1 ∧
    connectWebSocket sOpenWitness = sOpenWitness := by
  have h := c9_single_lazy_connection
    [ClientEv.on "task:update" 7, ClientEv.close, ClientEv.fire]
  exact ⟨h.1, h.2.2.2 sOpenWitness rfl⟩

/-! ## Claim theorems: API-key store and routes -/

/-- **C1 counterexample**: the claim fails as stated.  The JSON string
`"\uD800"` (one unpaired high surrogate, code unit 55296) is a non-empty
string, so `POST /api/api-keys/foo` accepts and stores it, but the
subsequent GET does not return the stored key: Node's `Buffer` conversion
inside `simpleEncrypt`/`simpleDecrypt` degrades the lone surrogate, and
the GET answers code unit 65438 instead. -/
theorem c1_counterexample :
    (postApiKeyRoute [] "foo" (.str [55296]) none 0).1 = StoreResp.ok ∧
    getApiKeyRoute (postApiKeyRoute [] "foo" (.str [55296]) none 0).2 "foo" =
      some [65438] ∧
    ([65438] : List Nat) ≠ [55296] := by
  refine ⟨rfl, by decide, by decide⟩

/-- **C1 (amended)**: a POST whose body key is missing, empty, or not a
string is rejected with status 400, an `error` body, and no store
mutation; a POST with a non-empty string key answers `{success: true}`
and — provided the key is well-formed UTF-16 (no unpaired surrogates) — a
subsequent GET for that provider returns exactly the stored key, i.e.
`simpleDecrypt (simpleEncrypt k) = k` for those keys. -/
theorem c1_post_get_roundtrip (db : ApiKeyDb) (p : String) (keyVal : JSValue)
    (labelVal : Option (List Nat)) (now : Nat) :
    ((∀ s, keyVal = .str s → s = []) →
      postApiKeyRoute db p keyVal labelVal now =
        (StoreResp.badRequest "API key is required", db)) ∧
    (∀ s, keyVal = .str s → s ≠ [] → wfUnits s = true →
      postApiKeyRoute db p keyVal labelVal now =
        (StoreResp.ok, storeApiKey db p s labelVal now) ∧
      getApiKeyRoute (storeApiKey db p s labelVal now) p = some s) := by
  constructor
  · intro hrej
    unfold postApiKeyRoute
    rw [if_pos ((keyGuard_iff keyVal).mpr hrej)]
  · rintro s rfl hne hwf
    have hguard : (jsFalsy (.str s) || !jsIsString (.str s)) = false := by
      simp [jsFalsy, jsIsString, List.isEmpty_iff, hne]
    constructor
    · unfold postApiKeyRoute
      rw [if_neg (by simp [hguard])]
    · unfold getApiKeyRoute getApiKey storeApiKey
      simp only [lookup_insertOrReplace_self, Option.map_some']
      rw [simpleDecrypt_simpleEncrypt s hwf]

/-- **C1 witness**: the concrete round trip of the key `"abc"`. -/
theorem c1_witness :
    postApiKeyRoute [] "foo" (.str [97, 98, 99]) none 0 =
      (StoreResp.ok, storeApiKey [] "foo" [97, 98, 99] none 0) ∧
    getApiKeyRoute (storeApiKey [] "foo" [97, 98, 99] none 0) "foo" =
      some [97, 98, 99] ∧
    postApiKeyRoute [] "foo" (.str []) none 0 =
      (StoreResp.badRequest "API key is required", []) := by
  have h := c1_post_get_roundtrip [] "foo" (.str [97, 98, 99]) none 0
  have h2 := h.2 [97, 98, 99] rfl (by decide) (by decide)
  have h3 := (c1_post_get_roundtrip [] "foo" (.str []) none 0).1 (by
    intro s hs
    cases hs
    rfl)
  exact ⟨h2.1, h2.2, h3⟩

/-- **C7 counterexample**: the response to `{key: ""}` has status 400 and
carries no `warning` field at all, refuting "the warning field is present
in every response of this endpoint". -/
theorem c7_counterexample :
    (validateApiKeyRoute (.str [])).status = 400 ∧
    (validateApiKeyRoute (.str [])).warning = none := ⟨rfl, rfl⟩

/-- **C7 (amended)**: a non-empty string key gets status 200 with
`{valid: true}`, no error, and the mandatory non-empty warning saying the
check is format-only; an empty/missing/non-string key gets status 400
with `{valid: false}` and a non-empty error but *no* warning field.
Validation is never more than the non-empty-string check (the 200 branch
always reports `valid: true`) and never consults an external provider. -/
theorem c7_validate_spec (keyVal : JSValue) :
    ((∀ s, keyVal = .str s → s = []) →
      validateApiKeyRoute keyVal = ⟨400, false, some "API key is required", none⟩ ∧
      "API key is required" ≠ "") ∧
    (∀ s, keyVal = .str s → s ≠ [] →
      validateApiKeyRoute keyVal = ⟨200, true, none, some validateWarning⟩ ∧
      validateWarning ≠ "") := by
  constructor
  · intro hrej
    refine ⟨?_, by decide⟩
    unfold validateApiKeyRoute
    rw [if_pos ((keyGuard_iff keyVal).mpr hrej)]
  · rintro s rfl hne
    have hguard : (jsFalsy (.str s) || !jsIsString (.str s)) = false := by
      simp [jsFalsy, jsIsString, List.isEmpty_iff, hne]
    have hlen : decide (s.length > 0) = true := by
      simp [List.length_pos_iff_ne_nil, hne]
    refine ⟨?_, by decide⟩
    unfold validateApiKeyRoute
    rw [if_neg (by simp [hguard])]
    simp only [hlen]
    rfl

/-- **C7 witness**: the concrete validations of `"sk-123"` and `""`. -/
theorem c7_witness :
    validateApiKeyRoute (.str [115, 107, 45, 49, 50, 51]) =
      ⟨200, true, none, some validateWarning⟩ ∧
    validateApiKeyRoute (.str []) = ⟨400, false, some "API key is required", none⟩ := by
  have h1 := (c7_validate_spec (.str [115, 107, 45, 49, 50, 51])).2
    [115, 107, 45, 49, 50, 51] rfl (by decide)
  have h2 := (c7_validate_spec (.str [])).1 (by
    intro s hs
    cases hs
    rfl)
  exact ⟨h1.1, h2.1⟩

/-- **C10**: storing a key for a provider that already has one replaces
the encrypted key, the label, and `updated_at`, keeps `created_at` equal
to the value set when the provider's key was first stored, and leaves
every other provider's row unchanged. -/
theorem c10_store_keeps_created_at (db : ApiKeyDb) (p : String) (k2 : List Nat)
    (label2 : Option (List Nat)) (now2 : Nat) (r : ApiKeyRow)
    (h : db.lookup p = some r) :
    (storeApiKey db p k2 label2 now2).lookup p =
      some ⟨simpleEncrypt k2, normLabel label2, r.created_at, now2⟩ ∧
    ∀ q, q ≠ p → (storeApiKey db p k2 label2 now2).lookup q = db.lookup q := by
  constructor
  · unfold storeApiKey
    simp only [h]
    exact lookup_insertOrReplace_self db p _
  · intro q hq
    unfold storeApiKey
    simp only [h]
    exact lookup_insertOrReplace_other db p q _ hq

/-- **C10 witness**: concrete double store for provider `"a"` next to an
untouched provider `"b"`. -/
theorem c10_witness :
    (storeApiKey [("a", ⟨simpleEncrypt [97], none, 5, 5⟩),
                  ("b", ⟨simpleEncrypt [98], none, 6, 6⟩)] "a" [99] (some [108]) 9).lookup "a" =
      some ⟨simpleEncrypt [99], some [108], 5, 9⟩ ∧
    (storeApiKey [("a", ⟨simpleEncrypt [97], none, 5, 5⟩),
                  ("b", ⟨simpleEncrypt [98], none, 6, 6⟩)] "a" [99] (some [108]) 9).lookup "b" =
      some ⟨simpleEncrypt [98], none, 6, 6⟩ := by
  have h := c10_store_keeps_created_at
    [("a", ⟨simpleEncrypt [97], none, 5, 5⟩), ("b", ⟨simpleEncrypt [98], none, 6, 6⟩)]
    "a" [99] (some [108]) 9 ⟨simpleEncrypt [97], none, 5, 5⟩ (by decide)
  exact ⟨h.1.trans (by decide), (h.2 "b" (by decide)).trans (by decide)⟩
